import Mathlib

/-!
Shallow embedding of the react-audit-tracker storage layer.

The definitions below are translated from the repository sources:
  src/src/adapters/LocalStorageAdapter.ts  (local adapter: save/query/filter/sort)
  src/unnamed/part_002                     (FirebaseAdapter: query translation)
  src/src/adapters/ApiAdapter.ts           (ApiAdapter: save)
  src/INTEGRATION_GUIDE.md                 (AuditProvider: track, loading/error state)
  src/unnamed/part_001                     (core TypeScript types)

JavaScript-level semantics that the code relies on (truthiness of `x || d`,
`Array.prototype.slice` index normalisation, `Math.ceil` of a quotient, the
stable `Array.prototype.sort`, case-insensitive substring search) are modelled
by small explicit functions, each documented at its definition.  Numbers are
modelled as `Int` (every number the adapters manipulate is integral),
`undefined`/absent fields as `Option`.
-/

namespace AuditTracker

/-- JSON-like tree for the open-ended `metadata` field
(`Record<string, any>` in src/unnamed/part_001: the root is always an object,
whose values are arbitrary). -/
inductive JsonValue where
  | null
  | bool (b : Bool)
  | num (n : Int)
  | str (s : String)
  | arr (elems : List JsonValue)
  | obj (fields : List (String × JsonValue))

/-- `AuditEvent` from src/unnamed/part_001: `action` and `entity` are required,
everything else optional. `timestamp` is integer milliseconds. -/
structure AuditEvent where
  id : Option String := none
  action : String
  entity : String
  entityId : Option String := none
  userId : Option String := none
  userName : Option String := none
  description : Option String := none
  metadata : Option JsonValue := none
  timestamp : Option Int := none
  ipAddress : Option String := none
  userAgent : Option String := none

/-- `AuditFilter` from src/unnamed/part_001. -/
structure AuditFilter where
  action : Option String := none
  entity : Option String := none
  entityId : Option String := none
  userId : Option String := none
  startDate : Option Int := none
  endDate : Option Int := none
  search : Option String := none

/-- `PaginationOptions` from src/unnamed/part_001. -/
structure PaginationOptions where
  page : Int
  pageSize : Int
deriving DecidableEq

/-- Sort direction (the TypeScript union `'asc' | 'desc'`). -/
inductive SortDirection where
  | asc
  | desc
deriving DecidableEq

/-- `SortOptions` from src/unnamed/part_001 (`field` is a key name). -/
structure SortOptions where
  field : String
  direction : SortDirection

/-- `QueryOptions` from src/unnamed/part_001. -/
structure QueryOptions where
  filter : Option AuditFilter := none
  pagination : Option PaginationOptions := none
  sort : Option SortOptions := none

/-- `PaginatedResult<AuditEvent>` from src/unnamed/part_001. -/
structure PaginatedResult where
  data : List AuditEvent
  total : Int
  page : Int
  pageSize : Int
  totalPages : Int

/-! ### JavaScript semantics helpers -/

/-- JS truthiness of an optional string: `undefined` and `""` are falsy. -/
def truthyStr : Option String → Bool
  | none => false
  | some s => if s = "" then false else true

/-- JS truthiness of an optional number: `undefined` and `0` are falsy. -/
def truthyInt : Option Int → Bool
  | none => false
  | some n => if n = 0 then false else true

/-- JS `v || d` for an optional number `v`: falsy (`undefined` or `0`) yields
the default. -/
def jsOr (v : Option Int) (d : Int) : Int :=
  match v with
  | none => d
  | some n => if n = 0 then d else n

/-- `Array.prototype.slice(start, stop)`: negative indices count from the end,
indices are clamped to `[0, length]`, the window is `[s, e)`. -/
def jsSlice {α : Type} (l : List α) (start stop : Int) : List α :=
  let len : Int := l.length
  let s : Int := if start < 0 then max (len + start) 0 else min start len
  let e : Int := if stop < 0 then max (len + stop) 0 else min stop len
  (l.drop s.toNat).take (e - s).toNat

/-- `Math.ceil(a / b)` for integral `a`, `b` with `b ≠ 0`:
the ceiling of the rational quotient. -/
def jsCeilDiv (a b : Int) : Int := -(Int.fdiv (-a) b)

/-- One non-recursive level of JS string coercion, used for the elements of an
array being joined by `Array.prototype.toString`. -/
def jsAtomStr : JsonValue → String
  | .null => ""
  | .bool b => cond b "true" "false"
  | .num n => toString n
  | .str s => s
  | .arr _ => ""
  | .obj _ => "[object Object]"

/-- JS string coercion of a non-primitive value as performed by the abstract
relational comparison: plain objects become "[object Object]", arrays join
their elements with ",".  One level of flattening suffices here because the
only non-primitive value the adapters can ever compare is the `metadata` field,
whose root is always a plain object. -/
def jsCoerce : JsonValue → String
  | .null => "null"
  | .bool b => cond b "true" "false"
  | .num n => toString n
  | .str s => s
  | .arr xs => String.intercalate "," (xs.map jsAtomStr)
  | .obj _ => "[object Object]"

/-- `needle` occurs as a prefix of `hay` (on character lists). -/
def charsPre : List Char → List Char → Bool
  | [], _ => true
  | _ :: _, [] => false
  | a :: as, b :: bs => a == b && charsPre as bs

/-- `needle` occurs as a contiguous substring of `hay` (on character lists). -/
def charsSub (needle : List Char) : List Char → Bool
  | [] => charsPre needle []
  | hay@(_ :: rest) => charsPre needle hay || charsSub needle rest

/-- `hay.includes(needle)`: contiguous substring test. -/
def strIncludes (hay needle : String) : Bool :=
  charsSub needle.data hay.data

/-- `s.toLowerCase()`: character-wise lowercasing. -/
def strLower (s : String) : String :=
  String.mk (s.data.map Char.toLower)

/-! ### Dynamic field access and comparison (`a[sort.field]`, `<`, `>`) -/

/-- The value of a dynamically accessed `AuditEvent` property, as the JS code
sees it: a string, a number (`timestamp`), or the JSON `metadata` value. -/
inductive FieldVal where
  | str (s : String)
  | num (n : Int)
  | json (j : JsonValue)

/-- `event[field as keyof AuditEvent]`: `undefined` (`none`) when the property
is absent or when `field` names no `AuditEvent` property. -/
def getField (f : String) (e : AuditEvent) : Option FieldVal :=
  if f = "id" then e.id.map .str
  else if f = "action" then some (.str e.action)
  else if f = "entity" then some (.str e.entity)
  else if f = "entityId" then e.entityId.map .str
  else if f = "userId" then e.userId.map .str
  else if f = "userName" then e.userName.map .str
  else if f = "description" then e.description.map .str
  else if f = "metadata" then e.metadata.map .json
  else if f = "timestamp" then e.timestamp.map .num
  else if f = "ipAddress" then e.ipAddress.map .str
  else if f = "userAgent" then e.userAgent.map .str
  else none

/-- The JS `<` relation on two same-property values: lexicographic on strings,
numeric on numbers, and on non-primitives via string coercion.  Values of
different shapes never arise from the same property; JS would compare their
coercions, and we conservatively return `false` (comparison 0), which is what
JS itself yields for the only reachable mixed case (`NaN` after a failed
numeric coercion). -/
def ltVal : FieldVal → FieldVal → Bool
  | .str a, .str b => decide (a < b)
  | .num a, .num b => decide (a < b)
  | .json a, .json b => decide (jsCoerce a < jsCoerce b)
  | _, _ => false

/-- The body of the sort comparator of LocalStorageAdapter.applySort
(lines 152-164) after both values were found present: two sequential `if`
assignments producing -1/0/1. -/
def cmpVal (av bv : FieldVal) : Int :=
  let c1 : Int := if ltVal av bv then -1 else 0
  if ltVal bv av then 1 else c1

/-- The full comparator of LocalStorageAdapter.applySort: an absent value on
the left yields 1 and on the right -1, both before the direction is applied;
otherwise the value comparison, negated for `desc`. -/
def compareEvents (s : SortOptions) (a b : AuditEvent) : Int :=
  match getField s.field a, getField s.field b with
  | none, _ => 1
  | some _, none => -1
  | some av, some bv =>
    match s.direction with
    | .asc => cmpVal av bv
    | .desc => -(cmpVal av bv)

/-! ### Stable sort (model of ES2019 `Array.prototype.sort`) -/

/-- Insert `x` into `l`, placing it before the first element it compares
strictly below and after everything else (so equal elements keep their
relative order). -/
def insertSorted {α : Type} (c : α → α → Int) (x : α) : List α → List α
  | [] => [x]
  | y :: ys => if c x y < 0 then x :: y :: ys else y :: insertSorted c x ys

/-- Stable sort by repeated ordered insertion, processing the input left to
right: the model of the (specified-stable) `Array.prototype.sort`. -/
def stableSort {α : Type} (c : α → α → Int) (l : List α) : List α :=
  l.foldl (fun acc x => insertSorted c x acc) []

/-! ### LocalStorageAdapter (src/src/adapters/LocalStorageAdapter.ts) -/

/-- The raw persisted blob under the adapter's storage key: absent, present
but unparseable, or a parsed list of events. -/
inductive RawStore where
  | absent
  | corrupt
  | good (events : List AuditEvent)

namespace LocalStorageAdapter

/-- getAllEvents (lines 107-115): a missing blob is `[]`, a parse failure is
caught and also yields `[]`. -/
def getAllEvents : RawStore → List AuditEvent
  | .absent => []
  | .corrupt => []
  | .good events => events

/-- generateId (lines 170-172): `Date.now()` + "-" + a random base-36 suffix. -/
def generateId (now : Int) (randSuffix : String) : String :=
  toString now ++ "-" ++ randSuffix

/-- The event actually stored by save (lines 29-33): `event.id || generateId()`
and `event.timestamp || Date.now()` — JS `||`, so falsy (`undefined`, `""`,
`0`) triggers the generated value. -/
def normalizeEvent (now : Int) (randSuffix : String) (e : AuditEvent) : AuditEvent :=
  { e with
    id := some (if truthyStr e.id then e.id.getD "" else generateId now randSuffix),
    timestamp := some (if truthyInt e.timestamp then e.timestamp.getD 0 else now) }

/-- save (lines 24-49): read all events, normalize, `unshift` (prepend), then
`splice(maxEvents)` (truncate) when over the cap, and write back. -/
def save (maxEvents : Nat) (now : Int) (randSuffix : String) (event : AuditEvent)
    (store : RawStore) : RawStore :=
  let events := getAllEvents store
  let newEvent := normalizeEvent now randSuffix event
  let events := newEvent :: events
  let events := if events.length > maxEvents then events.take maxEvents else events
  RawStore.good events

/-- One predicate test of applyFilters (lines 120-146), mirroring the
early-return chain of the `events.filter` callback. -/
def matchesFilter (f : AuditFilter) (e : AuditEvent) : Bool :=
  if truthyStr f.action && !(some e.action == f.action) then false
  else if truthyStr f.entity && !(some e.entity == f.entity) then false
  else if truthyStr f.entityId && !(e.entityId == f.entityId) then false
  else if truthyStr f.userId && !(e.userId == f.userId) then false
  else if truthyInt f.startDate && truthyInt e.timestamp
      && decide (e.timestamp.getD 0 < f.startDate.getD 0) then false
  else if truthyInt f.endDate && truthyInt e.timestamp
      && decide (e.timestamp.getD 0 > f.endDate.getD 0) then false
  else if truthyStr f.search then
    let searchLower := strLower (f.search.getD "")
    let searchableFields := [some e.action, some e.entity, e.entityId, e.userName, e.description]
    searchableFields.any fun field =>
      match field with
      | none => false
      | some s => strIncludes (strLower s) searchLower
  else true

/-- applyFilters (lines 120-146). -/
def applyFilters (events : List AuditEvent) (f : AuditFilter) : List AuditEvent :=
  events.filter (matchesFilter f)

/-- applySort (lines 151-165): a stable sort of a copy of the array under
`compareEvents`. -/
def applySort (events : List AuditEvent) (s : SortOptions) : List AuditEvent :=
  stableSort (compareEvents s) events

/-- query (lines 54-90): filter if given, sort if given, then paginate with
`page = pagination?.page || 1`, `pageSize = pagination?.pageSize || 10`,
`total` the filtered count, `totalPages = Math.ceil(total / pageSize)`, and
`data = events.slice((page-1)*pageSize, (page-1)*pageSize + pageSize)`. -/
def query (options : Option QueryOptions) (store : RawStore) : PaginatedResult :=
  let events := getAllEvents store
  let events := match options.bind (·.filter) with
    | some f => applyFilters events f
    | none => events
  let events := match options.bind (·.sort) with
    | some s => applySort events s
    | none => events
  let page := jsOr ((options.bind (·.pagination)).map (·.page)) 1
  let pageSize := jsOr ((options.bind (·.pagination)).map (·.pageSize)) 10
  let total : Int := events.length
  let totalPages := jsCeilDiv total pageSize
  let startIndex := (page - 1) * pageSize
  let endIndex := startIndex + pageSize
  { data := jsSlice events startIndex endIndex
    total := total
    page := page
    pageSize := pageSize
    totalPages := totalPages }

end LocalStorageAdapter

/-! ### FirebaseAdapter (src/unnamed/part_002) -/

namespace FirebaseAdapter

/-- The `where` clauses built by query (lines 137-159), evaluated with
Firestore semantics over the collection: equality and range clauses only —
the `search` predicate is never translated (no clause mentions it).  A
document missing the filtered property matches no clause on it. -/
def applyWhereFilters (f : AuditFilter) (docs : List AuditEvent) : List AuditEvent :=
  let docs := if truthyStr f.action then
    docs.filter (fun e => some e.action == f.action) else docs
  let docs := if truthyStr f.entity then
    docs.filter (fun e => some e.entity == f.entity) else docs
  let docs := if truthyStr f.entityId then
    docs.filter (fun e => e.entityId == f.entityId) else docs
  let docs := if truthyStr f.userId then
    docs.filter (fun e => e.userId == f.userId) else docs
  let docs := if truthyInt f.startDate then
    docs.filter (fun e => match e.timestamp with
      | some t => decide (t ≥ f.startDate.getD 0)
      | none => false) else docs
  let docs := if truthyInt f.endDate then
    docs.filter (fun e => match e.timestamp with
      | some t => decide (t ≤ f.endDate.getD 0)
      | none => false) else docs
  docs

/-- The `orderBy(sortField, sortDirection)` clause (line 164) with Firestore
semantics: documents missing the ordered property are excluded, the rest are
sorted by its value. -/
def applyOrderBy (field : String) (dir : SortDirection) (docs : List AuditEvent) :
    List AuditEvent :=
  stableSort (compareEvents ⟨field, dir⟩) (docs.filter fun e => (getField field e).isSome)

/-- query (lines 123-210): where clauses from the filter, `orderBy` with
`sort?.field || 'timestamp'` and `sort?.direction || 'desc'`, then only
`limit(pageSize)` — the requested `page` is read (line 167) but never used to
offset the query; `total` is the size of the single returned page. -/
def query (options : Option QueryOptions) (docs : List AuditEvent) : PaginatedResult :=
  let docs := match options.bind (·.filter) with
    | some f => applyWhereFilters f docs
    | none => docs
  let sortField := match (options.bind (·.sort)).map (·.field) with
    | some s => if s = "" then "timestamp" else s
    | none => "timestamp"
  let sortDirection := match (options.bind (·.sort)).map (·.direction) with
    | some d => d
    | none => .desc
  let docs := applyOrderBy sortField sortDirection docs
  let page := jsOr ((options.bind (·.pagination)).map (·.page)) 1
  let pageSize := jsOr ((options.bind (·.pagination)).map (·.pageSize)) 10
  let docs := docs.take pageSize.toNat
  let total : Int := docs.length
  let totalPages := jsCeilDiv total pageSize
  { data := docs
    total := total
    page := page
    pageSize := pageSize
    totalPages := totalPages }

end FirebaseAdapter

/-! ### ApiAdapter (src/src/adapters/ApiAdapter.ts) and the Coordinator
(AuditProvider, source reproduced in src/INTEGRATION_GUIDE.md) -/

/-- The error taxonomy of the design: every medium failure the adapters raise
is a `StoreUnavailable`. -/
inductive AuditError where
  | storeUnavailable (msg : String)
deriving DecidableEq

/-- `Response.ok`: status in the 2xx range. -/
def responseOk (status : Nat) : Bool :=
  decide (200 ≤ status) && decide (status < 300)

namespace ApiAdapter

/-- save (lines 23-52), as a function of the HTTP status of the POST response:
a non-2xx response throws, the catch block rethrows the failure as the
adapter's store-unavailable error. -/
def save (status : Nat) : Except AuditError Unit :=
  if responseOk status then .ok ()
  else .error (.storeUnavailable "Failed to save audit event via API")

end ApiAdapter

namespace AuditProvider

/-- The Coordinator's shared mutable state: the `loading` and `error` React
state of AuditProvider. -/
structure State where
  loading : Bool
  error : Option AuditError
deriving DecidableEq

/-- track (INTEGRATION_GUIDE.md lines 598-616): `setLoading(true)`,
`setError(null)`, await the adapter's save, on failure `setError(err)` and
rethrow, finally `setLoading(false)`.  Modelled as the net state transition
together with the propagated outcome. -/
def track (_st : State) (saveResult : Except AuditError Unit) :
    State × Except AuditError Unit :=
  match saveResult with
  | .ok () => ({ loading := false, error := none }, .ok ())
  | .error e => ({ loading := false, error := some e }, .error e)

end AuditProvider

/-! ### The spec-side filter predicate (section 4.1 of the design document),
for comparison with the code's `matchesFilter` -/

namespace Spec

/-- Spec: an exact-match predicate applies when supplied (truthy). -/
def fieldEq (fv ev : Option String) : Bool :=
  if truthyStr fv then ev == fv else true

/-- Spec: `startDate` bounds the timestamp inclusively from below; an event
without a (truthy) timestamp is not excluded. -/
def startOk (sd ts : Option Int) : Bool :=
  if truthyInt sd && truthyInt ts then decide (sd.getD 0 ≤ ts.getD 0) else true

/-- Spec: `endDate` bounds the timestamp inclusively from above; an event
without a (truthy) timestamp is not excluded. -/
def endOk (ed ts : Option Int) : Bool :=
  if truthyInt ed && truthyInt ts then decide (ts.getD 0 ≤ ed.getD 0) else true

/-- Spec: `search` is a case-insensitive substring match against the union of
`action`, `entity`, `entityId`, `userName`, `description`. -/
def searchOk (sv : Option String) (e : AuditEvent) : Bool :=
  if truthyStr sv then
    [some e.action, some e.entity, e.entityId, e.userName, e.description].any fun field =>
      match field with
      | none => false
      | some s => strIncludes (strLower s) (strLower (sv.getD ""))
  else true

/-- Spec, section 4.1: all supplied predicates conjoined (AND). -/
def eventMatches (f : AuditFilter) (e : AuditEvent) : Bool :=
  fieldEq f.action (some e.action)
  && fieldEq f.entity (some e.entity)
  && fieldEq f.entityId e.entityId
  && fieldEq f.userId e.userId
  && startOk f.startDate e.timestamp
  && endOk f.endDate e.timestamp
  && searchOk f.search e

end Spec

/-! ### Sort keys: the equivalence classes of the comparator's value order -/

/-- A canonical sort key: the comparator compares two present values as equal
exactly when they have the same key.  JSON values are keyed by their string
coercion (tagged separately, since a JSON value and a plain string never come
from the same property). -/
inductive SortKey where
  | str (s : String)
  | num (n : Int)
  | jsonstr (s : String)
deriving DecidableEq

/-- The key of a field value. -/
def canonVal : FieldVal → SortKey
  | .str s => .str s
  | .num n => .num n
  | .json j => .jsonstr (jsCoerce j)

/-- The sort key of an event under a sort field, when present. -/
def sortKey (f : String) (e : AuditEvent) : Option SortKey :=
  (getField f e).map canonVal

/-- Between two events of the sorted output, a later event can only have a
present sort-field value if the earlier one does too (missing values rank
last). -/
def relMissing (s : SortOptions) (a b : AuditEvent) : Prop :=
  (getField s.field b).isSome = true → (getField s.field a).isSome = true

/-- The invariant of a list built by ordered insertion: no later element
compares strictly below an earlier one. -/
def sortedInv (s : SortOptions) (l : List AuditEvent) : Prop :=
  List.Pairwise (fun a b => ¬ compareEvents s b a < 0) l

/-- The event stored for one `save` call described by its environment
(`Date.now()` value, random id suffix) and draft. -/
def normTriple (x : Int × String × AuditEvent) : AuditEvent :=
  LocalStorageAdapter.normalizeEvent x.1 x.2.1 x.2.2

/-- A sequence of `save` calls, each with its own environment. -/
def saveAll (maxEvents : Nat) (batch : List (Int × String × AuditEvent))
    (store : RawStore) : RawStore :=
  batch.foldl (fun st x => LocalStorageAdapter.save maxEvents x.1 x.2.1 x.2.2 st) store

/-! ### Concrete sample data used by the evaluation theorems -/

/-- A sample event: a document creation at timestamp 100. -/
def ev1 : AuditEvent :=
  { action := "DOC_CREATED", entity := "Document",
    description := some "Document created", timestamp := some 100 }

/-- A sample event: a user login at timestamp 200. -/
def ev2 : AuditEvent :=
  { action := "USER_LOGIN", entity := "User",
    description := some "User login", timestamp := some 200 }

/-- A draft carrying an explicit timestamp 10. -/
def draftOld : AuditEvent := { action := "A1", entity := "E1", timestamp := some 10 }

/-- A draft carrying an explicit timestamp 5, saved after `draftOld`. -/
def draftNew : AuditEvent := { action := "A2", entity := "E2", timestamp := some 5 }

/-- The local store after saving `draftOld` then `draftNew` (both timestamps
caller-supplied, the second one older than the first). -/
def storeC4 : RawStore :=
  LocalStorageAdapter.save 1000 99 "r2" draftNew
    (LocalStorageAdapter.save 1000 98 "r1" draftOld (.good []))

/-- A draft whose caller-supplied timestamp is the epoch, 0. -/
def draftZeroTs : AuditEvent := { action := "LOGIN", entity := "User", timestamp := some 0 }

/-- A draft carrying both a non-empty id and a nonzero timestamp. -/
def draftFull : AuditEvent :=
  { id := some "keep", action := "A", entity := "E", timestamp := some 3 }

/-- Four saves (environments and drafts) against a store capped at three. -/
def batchC7 : List (Int × String × AuditEvent) :=
  [(1, "a", { action := "A1", entity := "E" }),
   (2, "b", { action := "A2", entity := "E" }),
   (3, "c", { action := "A3", entity := "E" }),
   (4, "d", { action := "A4", entity := "E" })]

/-! ## Theorems -/

/-- An early-return step of a boolean chain is a conjunction with the negated
condition. -/
theorem if_then_false (x r : Bool) : (if x then false else r) = (!x && r) := by
  cases x <;> simp

/-- A final conditional test in a boolean chain is a disjunction with the
negated condition. -/
theorem if_else_true (x a : Bool) : (if x then a else true) = (!x || a) := by
  cases x <;> simp

/-- Negating a strict integer comparison decides the reversed inclusive one. -/
theorem not_decide_lt (a b : Int) : (!decide (a < b)) = decide (b ≤ a) := by
  rw [← decide_not]
  simp [Int.not_lt]

/-- The local filter chain agrees pointwise with the spec's conjunction of
predicates. -/
theorem matchesFilter_eq_spec (f : AuditFilter) (e : AuditEvent) :
    LocalStorageAdapter.matchesFilter f e = Spec.eventMatches f e := by
  unfold LocalStorageAdapter.matchesFilter Spec.eventMatches Spec.fieldEq Spec.startOk
    Spec.endOk Spec.searchOk
  simp only [if_then_false, if_else_true, gt_iff_lt, Bool.not_and, Bool.not_not,
    not_decide_lt, Bool.and_assoc, Bool.or_assoc]

/-- `slice(0, n)` for `n ≥ 0` is `take`. -/
theorem jsSlice_zero {α : Type} (l : List α) (n : Int) (hn : 0 ≤ n) :
    jsSlice l 0 n = l.take n.toNat := by
  simp only [jsSlice]
  rw [if_neg (by omega : ¬((0 : Int) < 0)), if_neg (by omega : ¬(n < 0)),
    min_eq_left (Int.natCast_nonneg l.length)]
  simp only [Int.toNat_zero, List.drop_zero, Int.sub_zero]
  rcases le_total n (l.length : Int) with h | h
  · rw [min_eq_left h]
  · rw [min_eq_right h, Int.toNat_natCast, List.take_length]
    exact (List.take_of_length_le (by omega)).symm

/-- Claim C10: an event whose `timestamp` is absent is never excluded by the
date-range predicates of the Local Adapter: filtering it behaves exactly as if
no `startDate`/`endDate` had been supplied. -/
theorem local_filter_dateless_event_passes_date_bounds (f : AuditFilter) (e : AuditEvent)
    (h : e.timestamp = none) :
    LocalStorageAdapter.matchesFilter f e
      = LocalStorageAdapter.matchesFilter { f with startDate := none, endDate := none } e := by
  simp [LocalStorageAdapter.matchesFilter, h, truthyInt]

/-- Witness for C10 at a concrete filter and a concrete timestamp-less event. -/
theorem local_filter_dateless_event_passes_date_bounds_witness :
    (AuditEvent.timestamp { action := "A", entity := "E" } = none)
    ∧ LocalStorageAdapter.matchesFilter
        { startDate := some 50, endDate := some 150 } { action := "A", entity := "E" }
      = LocalStorageAdapter.matchesFilter
        { startDate := none, endDate := none } { action := "A", entity := "E" } :=
  ⟨rfl, local_filter_dateless_event_passes_date_bounds
    { startDate := some 50, endDate := some 150 } { action := "A", entity := "E" } rfl⟩

/-- Claim C8: a corrupt persisted blob is treated as an empty store: `query`
returns the empty result with `total = 0` (for every option set) and `save`
acts exactly as on the empty store. -/
theorem local_corrupt_store_acts_as_empty (opts : Option QueryOptions) (m : Nat)
    (now : Int) (suffix : String) (e : AuditEvent) :
    LocalStorageAdapter.getAllEvents .corrupt = []
    ∧ LocalStorageAdapter.query opts .corrupt = LocalStorageAdapter.query opts (.good [])
    ∧ (LocalStorageAdapter.query opts .corrupt).data = []
    ∧ (LocalStorageAdapter.query opts .corrupt).total = 0
    ∧ LocalStorageAdapter.save m now suffix e .corrupt
        = LocalStorageAdapter.save m now suffix e (.good []) := by
  have hdata : ∀ store : RawStore, LocalStorageAdapter.getAllEvents store = [] →
      (LocalStorageAdapter.query opts store).data = []
      ∧ (LocalStorageAdapter.query opts store).total = 0 := by
    intro store hst
    unfold LocalStorageAdapter.query
    rw [hst]
    rcases opts with _ | ⟨fl, pg, so⟩
    · simp [jsSlice, jsCeilDiv]
    · rcases fl with _ | fl <;> rcases so with _ | so <;>
        simp [LocalStorageAdapter.applyFilters, LocalStorageAdapter.applySort, stableSort,
          jsSlice, jsCeilDiv]
  exact ⟨rfl, rfl, (hdata .corrupt rfl).1, (hdata .corrupt rfl).2, rfl⟩

/-- Claim C9: a non-2xx response makes ApiAdapter.save fail with the
store-unavailable error, and the Coordinator's `track` then records exactly
that error (the error field is set, nothing else changes) and re-raises it. -/
theorem api_save_non2xx_raises_and_only_records_error (st : AuditProvider.State)
    (status : Nat) (hl : st.loading = false) (h : responseOk status = false) :
    ApiAdapter.save status = .error (.storeUnavailable "Failed to save audit event via API")
    ∧ AuditProvider.track st (ApiAdapter.save status)
        = ({ st with error := some (.storeUnavailable "Failed to save audit event via API") },
           .error (.storeUnavailable "Failed to save audit event via API")) := by
  have hs : ApiAdapter.save status
      = .error (.storeUnavailable "Failed to save audit event via API") := by
    simp [ApiAdapter.save, h]
  refine ⟨hs, ?_⟩
  rw [hs]
  obtain ⟨l, er⟩ := st
  simp only [AuditProvider.State.loading] at hl
  subst hl
  rfl

/-- Witness for C9 at HTTP 500 and an idle Coordinator. -/
theorem api_save_non2xx_raises_witness :
    AuditProvider.State.loading ⟨false, none⟩ = false
    ∧ responseOk 500 = false
    ∧ (ApiAdapter.save 500 = .error (.storeUnavailable "Failed to save audit event via API")
       ∧ AuditProvider.track ⟨false, none⟩ (ApiAdapter.save 500)
         = (⟨false, some (.storeUnavailable "Failed to save audit event via API")⟩,
            .error (.storeUnavailable "Failed to save audit event via API"))) :=
  ⟨rfl, by decide, api_save_non2xx_raises_and_only_records_error ⟨false, none⟩ 500 rfl (by decide)⟩

/-- Counterexample to claim C3 as stated: non-positive pagination and an
unrecognized sort field do not fail — `query` returns a normal
PaginatedResult (page 0 silently becomes 1). -/
theorem local_query_no_validation_counterexample :
    LocalStorageAdapter.query (some { pagination := some ⟨0, 5⟩ }) (.good [ev1])
      = { data := [ev1], total := 1, page := 1, pageSize := 5, totalPages := 1 }
    ∧ LocalStorageAdapter.query (some { sort := some ⟨"bogus", .asc⟩ }) (.good [ev1])
      = { data := [ev1], total := 1, page := 1, pageSize := 10, totalPages := 1 } :=
  ⟨rfl, rfl⟩

/-- Claim C3 as amended: `query` performs no validation and has no invalid-query
failure; a `page` or `pageSize` of 0 is silently replaced by the defaults 1
and 10, and the call returns a normal result. -/
theorem local_query_zero_pagination_defaults (fl : Option AuditFilter)
    (so : Option SortOptions) (ps p : Int) (store : RawStore) :
    LocalStorageAdapter.query (some ⟨fl, some ⟨0, ps⟩, so⟩) store
      = LocalStorageAdapter.query (some ⟨fl, some ⟨1, ps⟩, so⟩) store
    ∧ LocalStorageAdapter.query (some ⟨fl, some ⟨p, 0⟩, so⟩) store
      = LocalStorageAdapter.query (some ⟨fl, some ⟨p, 10⟩, so⟩) store := by
  constructor <;> simp [LocalStorageAdapter.query, jsOr]

/-- Counterexample to claim C4 as stated: with `sort` omitted the result is
NOT sorted by timestamp descending — it is the stored order (most recently
saved first), here timestamps `[5, 10]` where a timestamp sort would give
`[10, 5]`. -/
theorem local_query_default_sort_counterexample :
    ((LocalStorageAdapter.query none storeC4).data.map (·.timestamp)) = [some 5, some 10]
    ∧ ((LocalStorageAdapter.applySort (LocalStorageAdapter.getAllEvents storeC4)
        ⟨"timestamp", .desc⟩).map (·.timestamp)) = [some 10, some 5]
    ∧ (LocalStorageAdapter.query none storeC4).data
        ≠ LocalStorageAdapter.applySort (LocalStorageAdapter.getAllEvents storeC4)
            ⟨"timestamp", .desc⟩ := by
  refine ⟨rfl, rfl, fun h => ?_⟩
  have h2 : ([some (5 : Int), some 10] : List (Option Int)) = [some 10, some 5] :=
    congrArg (List.map fun e => AuditEvent.timestamp e) h
  simp at h2

/-- Claim C4 as amended: with options omitted, no filter is applied (`total`
counts every stored event), `page = 1`, `pageSize = 10`, and no sorting is
applied — `data` is the first ten events in stored order. -/
theorem local_query_defaults (l : List AuditEvent) :
    (LocalStorageAdapter.query none (.good l)).data = l.take 10
    ∧ (LocalStorageAdapter.query none (.good l)).total = l.length
    ∧ (LocalStorageAdapter.query none (.good l)).page = 1
    ∧ (LocalStorageAdapter.query none (.good l)).pageSize = 10 := by
  refine ⟨?_, rfl, rfl, rfl⟩
  show jsSlice l ((1 - 1) * 10) ((1 - 1) * 10 + 10) = l.take 10
  norm_num
  exact jsSlice_zero l 10 (by omega)

/-- Claim C1 (code evaluation at the failing input): FirebaseAdapter.query for
page 2 with pageSize 1 returns the FIRST page's event (timestamp 200) while
echoing `page = 2`; the page-2 window of the sorted set is the event with
timestamp 100, which is what LocalStorageAdapter.query returns for the same
request. -/
theorem firebase_query_ignores_page :
    ((FirebaseAdapter.query (some { pagination := some ⟨2, 1⟩ }) [ev1, ev2]).data.map
        (·.timestamp)) = [some 200]
    ∧ (FirebaseAdapter.query (some { pagination := some ⟨2, 1⟩ }) [ev1, ev2]).page = 2
    ∧ ((jsSlice (LocalStorageAdapter.applySort [ev1, ev2] ⟨"timestamp", .desc⟩)
        ((2 - 1) * 1) ((2 - 1) * 1 + 1)).map (·.timestamp)) = [some 100]
    ∧ ((LocalStorageAdapter.query
        (some { pagination := some ⟨2, 1⟩, sort := some ⟨"timestamp", .desc⟩ })
        (.good [ev1, ev2])).data.map (·.timestamp)) = [some 100] :=
  ⟨rfl, rfl, rfl, rfl⟩

/-- Counterexample to claim C2 as stated: a FirebaseAdapter query whose filter
carries only `search` returns an event that does not satisfy the search
predicate (the adapter never translates `search` into a clause). -/
theorem firebase_query_ignores_search :
    (FirebaseAdapter.query (some { filter := some { search := some "doc" } }) [ev2]).data
      = [ev2]
    ∧ Spec.eventMatches { search := some "doc" } ev2 = false :=
  ⟨rfl, by decide⟩

/-- Claim C2 as amended: the Local Adapter returns exactly the events
satisfying the conjunction of the supplied (truthy) predicates with the
stated semantics, while the Firebase adapter applies only the exact-match and
date-range predicates and ignores `search` entirely. -/
theorem local_filter_conjunction_exact (f : AuditFilter) (events : List AuditEvent) :
    LocalStorageAdapter.applyFilters events f = events.filter (Spec.eventMatches f)
    ∧ FirebaseAdapter.applyWhereFilters f events
        = FirebaseAdapter.applyWhereFilters { f with search := none } events := by
  constructor
  · unfold LocalStorageAdapter.applyFilters
    have hfun : LocalStorageAdapter.matchesFilter f = Spec.eventMatches f :=
      funext (matchesFilter_eq_spec f)
    rw [hfun]
  · rfl

/-! ### Comparator layer -/

/-- The JS value order is asymmetric. -/
theorem ltVal_asymm (a b : FieldVal) (h : ltVal a b = true) : ltVal b a = false := by
  cases a <;> cases b <;> simp_all [ltVal] <;> exact le_of_lt h

/-- The JS value order is transitive. -/
theorem ltVal_trans (a b d : FieldVal) (h1 : ltVal a b = true) (h2 : ltVal b d = true) :
    ltVal a d = true := by
  cases a <;> cases b <;> cases d <;> simp_all [ltVal] <;> exact lt_trans h1 h2

/-- The sequential two-test comparison is negative exactly for strictly
smaller values. -/
theorem cmpVal_neg_iff (a b : FieldVal) : cmpVal a b < 0 ↔ ltVal a b = true := by
  unfold cmpVal
  by_cases h : ltVal b a = true
  · rw [if_pos h]
    simp only [show ¬((1 : Int) < 0) by omega, false_iff]
    intro hab
    have := ltVal_asymm a b hab
    rw [h] at this
    cases this
  · rw [if_neg h]
    by_cases h2 : ltVal a b = true <;> simp [h2]

/-- The sequential two-test comparison is positive exactly for strictly
greater values. -/
theorem cmpVal_pos_iff (a b : FieldVal) : 0 < cmpVal a b ↔ ltVal b a = true := by
  unfold cmpVal
  by_cases h : ltVal b a = true
  · rw [if_pos h]
    simp [h]
  · rw [if_neg h]
    by_cases h2 : ltVal a b = true <;> simp [h2, h]

/-- Evaluation of the full comparator when both values are present. -/
theorem compareEvents_eval (s : SortOptions) (a b : AuditEvent) (va vb : FieldVal)
    (ha : getField s.field a = some va) (hb : getField s.field b = some vb) :
    compareEvents s a b
      = (if s.direction = .asc then cmpVal va vb else -(cmpVal va vb)) := by
  unfold compareEvents
  rw [ha, hb]
  cases s.direction <;> simp

/-- A missing left value always compares as 1, before the direction applies. -/
theorem compareEvents_none_left (s : SortOptions) (a b : AuditEvent)
    (h : getField s.field a = none) : compareEvents s a b = 1 := by
  unfold compareEvents
  rw [h]

/-- A present left value against a missing right one always compares as -1. -/
theorem compareEvents_some_none (s : SortOptions) (a b : AuditEvent) (va : FieldVal)
    (ha : getField s.field a = some va) (hb : getField s.field b = none) :
    compareEvents s a b = -1 := by
  unfold compareEvents
  rw [ha, hb]

/-- The comparator is asymmetric. -/
theorem compareEvents_asymm (s : SortOptions) (a b : AuditEvent)
    (h : compareEvents s a b < 0) : ¬ compareEvents s b a < 0 := by
  rcases hga : getField s.field a with _ | va
  · rw [compareEvents_none_left s a b hga] at h
    omega
  · rcases hgb : getField s.field b with _ | vb
    · rw [compareEvents_none_left s b a hgb]
      omega
    · rw [compareEvents_eval s a b va vb hga hgb] at h
      rw [compareEvents_eval s b a vb va hgb hga]
      cases hd : s.direction
      · rw [hd] at h
        simp only [reduceCtorEq, if_true, if_pos rfl] at h ⊢
        have hab := (cmpVal_neg_iff va vb).mp h
        intro hba
        have hba2 := (cmpVal_neg_iff vb va).mp hba
        have := ltVal_asymm va vb hab
        rw [hba2] at this
        cases this
      · rw [hd] at h
        simp only [reduceCtorEq, if_false] at h ⊢
        have hab : ltVal vb va = true := (cmpVal_pos_iff va vb).mp (by omega)
        intro hba
        have hba2 : ltVal va vb = true := (cmpVal_pos_iff vb va).mp (by omega)
        have := ltVal_asymm va vb hba2
        rw [hab] at this
        cases this

/-- The comparator is transitive on its negative cone. -/
theorem compareEvents_trans (s : SortOptions) (a b d : AuditEvent)
    (h1 : compareEvents s a b < 0) (h2 : compareEvents s b d < 0) :
    compareEvents s a d < 0 := by
  rcases hga : getField s.field a with _ | va
  · rw [compareEvents_none_left s a b hga] at h1
    omega
  · rcases hgb : getField s.field b with _ | vb
    · rw [compareEvents_none_left s b d hgb] at h2
      omega
    · rcases hgd : getField s.field d with _ | vd
      · rw [compareEvents_some_none s a d va hga hgd]
        omega
      · rw [compareEvents_eval s a b va vb hga hgb] at h1
        rw [compareEvents_eval s b d vb vd hgb hgd] at h2
        rw [compareEvents_eval s a d va vd hga hgd]
        cases hdir : s.direction
        · rw [hdir] at h1 h2
          simp only [reduceCtorEq, if_pos rfl] at h1 h2 ⊢
          exact (cmpVal_neg_iff va vd).mpr
            (ltVal_trans va vb vd ((cmpVal_neg_iff va vb).mp h1) ((cmpVal_neg_iff vb vd).mp h2))
        · rw [hdir] at h1 h2
          simp only [reduceCtorEq, if_false] at h1 h2 ⊢
          have hba : ltVal vb va = true := (cmpVal_pos_iff va vb).mp (by omega)
          have hdb : ltVal vd vb = true := (cmpVal_pos_iff vb vd).mp (by omega)
          have : ltVal vd va = true := ltVal_trans vd vb va hdb hba
          have := (cmpVal_pos_iff va vd).mpr this
          omega

/-- Equal canonical keys make the value order agree on both sides. -/
theorem ltVal_key_congr (vx vz : FieldVal) (h : canonVal vx = canonVal vz) (v : FieldVal) :
    ltVal vz v = ltVal vx v ∧ ltVal v vz = ltVal v vx := by
  cases vx <;> cases vz <;> simp_all [canonVal]
  cases v <;> simp [ltVal, h]

/-- Two events with the same sort key compare as 0. -/
theorem compareEvents_key_zero (s : SortOptions) (a b : AuditEvent) (k : SortKey)
    (ha : sortKey s.field a = some k) (hb : sortKey s.field b = some k) :
    compareEvents s a b = 0 := by
  obtain ⟨va, hga, hca⟩ := Option.map_eq_some'.mp ha
  obtain ⟨vb, hgb, hcb⟩ := Option.map_eq_some'.mp hb
  have hky : canonVal va = canonVal vb := by rw [hca, hcb]
  have h0 : cmpVal va vb = 0 := by
    have hc := ltVal_key_congr va vb hky va
    have hself : ∀ v : FieldVal, ltVal v v = false := by
      intro v
      cases v <;> simp [ltVal]
    unfold cmpVal
    rw [hc.2, hc.1, hself va]
    simp
  rw [compareEvents_eval s a b va vb hga hgb, h0]
  cases s.direction <;> simp

/-- Two events with the same sort key compare identically against every other
event. -/
theorem compareEvents_key_congr (s : SortOptions) (x z : AuditEvent) (k : SortKey)
    (hx : sortKey s.field x = some k) (hz : sortKey s.field z = some k) (w : AuditEvent) :
    compareEvents s z w = compareEvents s x w
    ∧ compareEvents s w z = compareEvents s w x := by
  obtain ⟨vx, hgx, hcx⟩ := Option.map_eq_some'.mp hx
  obtain ⟨vz, hgz, hcz⟩ := Option.map_eq_some'.mp hz
  have hky : canonVal vx = canonVal vz := by rw [hcx, hcz]
  rcases hgw : getField s.field w with _ | vw
  · constructor
    · rw [compareEvents_some_none s z w vz hgz hgw,
        compareEvents_some_none s x w vx hgx hgw]
    · rw [compareEvents_none_left s w z hgw, compareEvents_none_left s w x hgw]
  · have hcong := ltVal_key_congr vx vz hky vw
    have h1 : cmpVal vz vw = cmpVal vx vw := by
      unfold cmpVal
      rw [hcong.1, hcong.2]
    have h2 : cmpVal vw vz = cmpVal vw vx := by
      unfold cmpVal
      rw [hcong.1, hcong.2]
    constructor
    · rw [compareEvents_eval s z w vz vw hgz hgw, compareEvents_eval s x w vx vw hgx hgw, h1]
    · rw [compareEvents_eval s w z vw vz hgw hgz, compareEvents_eval s w x vw vx hgw hgx, h2]

/-- Counterexample to claim C6 as stated: a caller-supplied timestamp of 0 is
NOT preserved verbatim — JS `||` treats it as absent and `save` stores the
current time instead. -/
theorem local_save_zero_timestamp_counterexample :
    draftZeroTs.timestamp = some 0
    ∧ ((LocalStorageAdapter.getAllEvents
        (LocalStorageAdapter.save 1000 5 "r" draftZeroTs (.good []))).map (·.timestamp))
      = [some 5]
    ∧ some (5 : Int) ≠ some (0 : Int) :=
  ⟨rfl, rfl, by decide⟩

/-! ### Ordered insertion -/

/-- Membership through an ordered insertion. -/
theorem mem_insertSorted {α : Type} (c : α → α → Int) (x : α) (l : List α) (z : α)
    (h : z ∈ insertSorted c x l) : z = x ∨ z ∈ l := by
  induction l with
  | nil => simpa [insertSorted] using h
  | cons y ys ih =>
    by_cases hc : c x y < 0
    · rw [insertSorted, if_pos hc] at h
      rcases List.mem_cons.mp h with h1 | h2
      · exact Or.inl h1
      · exact Or.inr h2
    · rw [insertSorted, if_neg hc] at h
      rcases List.mem_cons.mp h with h1 | h2
      · exact Or.inr (h1 ▸ List.mem_cons_self y ys)
      · rcases ih h2 with h3 | h4
        · exact Or.inl h3
        · exact Or.inr (List.mem_cons_of_mem y h4)

/-- An element no smaller than anything lands at the end. -/
theorem insertSorted_append_end {α : Type} (c : α → α → Int) (x : α) (l : List α)
    (h : ∀ y ∈ l, ¬ c x y < 0) : insertSorted c x l = l ++ [x] := by
  induction l with
  | nil => rfl
  | cons y ys ih =>
    rw [insertSorted, if_neg (h y (List.mem_cons_self y ys))]
    rw [ih fun z hz => h z (List.mem_cons_of_mem y hz)]
    rfl

/-- An ordered insertion splits the list around the inserted element. -/
theorem insertSorted_split {α : Type} (c : α → α → Int) (x : α) (l : List α) :
    ∃ A B, l = A ++ B ∧ insertSorted c x l = A ++ x :: B := by
  induction l with
  | nil => exact ⟨[], [], rfl, rfl⟩
  | cons y ys ih =>
    by_cases hc : c x y < 0
    · exact ⟨[], y :: ys, rfl, by rw [insertSorted, if_pos hc]; rfl⟩
    · obtain ⟨A, B, h1, h2⟩ := ih
      refine ⟨y :: A, B, ?_, ?_⟩
      · rw [h1]; rfl
      · rw [insertSorted, if_neg hc, h2]; rfl

/-- An ordered insertion permutes the cons. -/
theorem insertSorted_perm {α : Type} (c : α → α → Int) (x : α) (l : List α) :
    List.Perm (insertSorted c x l) (x :: l) := by
  obtain ⟨A, B, h1, h2⟩ := insertSorted_split c x l
  rw [h2, h1]
  exact List.perm_middle

/-- The full sort permutes its input. -/
theorem stableSort_perm {α : Type} (c : α → α → Int) :
    ∀ (l acc : List α),
      List.Perm (l.foldl (fun acc x => insertSorted c x acc) acc) (acc ++ l) := by
  intro l
  induction l with
  | nil => intro acc; simp
  | cons x rest ih =>
    intro acc
    show List.Perm
      (rest.foldl (fun acc x => insertSorted c x acc) (insertSorted c x acc))
      (acc ++ x :: rest)
    have h1 := ih (insertSorted c x acc)
    have h2 : List.Perm (insertSorted c x acc ++ rest) ((x :: acc) ++ rest) :=
      List.Perm.append_right rest (insertSorted_perm c x acc)
    have h3 : List.Perm (acc ++ x :: rest) (x :: (acc ++ rest)) := List.perm_middle
    exact (h1.trans h2).trans h3.symm

/-- Inserting a present-valued event preserves the presents-first shape. -/
theorem pairwise_insert_present (s : SortOptions) (x : AuditEvent) (acc : List AuditEvent)
    (hx : (getField s.field x).isSome = true)
    (hp : List.Pairwise (relMissing s) acc) :
    List.Pairwise (relMissing s) (insertSorted (compareEvents s) x acc) := by
  induction acc with
  | nil => simp [insertSorted]
  | cons y ys ih =>
    rw [List.pairwise_cons] at hp
    obtain ⟨hy, hys⟩ := hp
    by_cases hc : compareEvents s x y < 0
    · rw [insertSorted, if_pos hc]
      refine List.Pairwise.cons ?_ (List.pairwise_cons.mpr ⟨hy, hys⟩)
      intro z _
      exact fun _ => hx
    · rw [insertSorted, if_neg hc]
      have hPy : (getField s.field y).isSome = true := by
        rcases hgy : getField s.field y with _ | vy
        · obtain ⟨vx, hvx⟩ := Option.isSome_iff_exists.mp hx
          have := compareEvents_some_none s x y vx hvx hgy
          omega
        · rfl
      refine List.Pairwise.cons ?_ (ih hys)
      intro z hz
      rcases mem_insertSorted (compareEvents s) x ys z hz with rfl | hzys
      · exact fun _ => hPy
      · exact hy z hzys

/-- Inserting a missing-valued event appends it, preserving the shape. -/
theorem pairwise_insert_missing (s : SortOptions) (x : AuditEvent) (acc : List AuditEvent)
    (hx : (getField s.field x).isSome = false)
    (hp : List.Pairwise (relMissing s) acc) :
    List.Pairwise (relMissing s) (insertSorted (compareEvents s) x acc) := by
  have hgx : getField s.field x = none := by
    rcases hg : getField s.field x with _ | v
    · rfl
    · rw [hg] at hx; cases hx
  rw [insertSorted_append_end (compareEvents s) x acc
    (fun y _ => by rw [compareEvents_none_left s x y hgx]; omega)]
  rw [List.pairwise_append]
  refine ⟨hp, List.pairwise_singleton _ _, ?_⟩
  intro a _ b hb
  rw [List.mem_singleton] at hb
  subst hb
  intro hPb
  rw [hgx] at hPb
  cases hPb

/-- Every list sorted by the comparator has all present-valued events before
all missing-valued ones. -/
theorem pairwise_stableSort (s : SortOptions) :
    ∀ (l acc : List AuditEvent), List.Pairwise (relMissing s) acc →
      List.Pairwise (relMissing s)
        (l.foldl (fun acc x => insertSorted (compareEvents s) x acc) acc) := by
  intro l
  induction l with
  | nil => intro acc h; exact h
  | cons x rest ih =>
    intro acc h
    show List.Pairwise (relMissing s)
      (rest.foldl (fun acc x => insertSorted (compareEvents s) x acc)
        (insertSorted (compareEvents s) x acc))
    rcases hx : (getField s.field x).isSome with _ | _
    · exact ih _ (pairwise_insert_missing s x acc hx h)
    · exact ih _ (pairwise_insert_present s x acc hx h)

/-- Ordered insertion preserves the no-later-element-below invariant. -/
theorem sortedInv_insert (s : SortOptions) (x : AuditEvent) (acc : List AuditEvent)
    (h : sortedInv s acc) : sortedInv s (insertSorted (compareEvents s) x acc) := by
  induction acc with
  | nil => simp [insertSorted, sortedInv]
  | cons y ys ih =>
    rw [sortedInv, List.pairwise_cons] at h
    obtain ⟨hy, hys⟩ := h
    by_cases hc : compareEvents s x y < 0
    · rw [sortedInv, insertSorted, if_pos hc]
      refine List.Pairwise.cons ?_ (List.pairwise_cons.mpr ⟨hy, hys⟩)
      intro z hz
      rcases List.mem_cons.mp hz with rfl | hzys
      · exact compareEvents_asymm s x z hc
      · intro hzx
        exact hy z hzys (compareEvents_trans s z x y hzx hc)
    · rw [sortedInv, insertSorted, if_neg hc]
      refine List.Pairwise.cons ?_ (ih hys)
      intro z hz
      rcases mem_insertSorted (compareEvents s) x ys z hz with rfl | hzys
      · exact hc
      · exact hy z hzys

/-- Inserting into an invariant-satisfying list sends the new element to the
end of its key class: filtering any key class commutes with the insertion. -/
theorem filter_insertSorted (s : SortOptions) (k : SortKey) (x : AuditEvent)
    (acc : List AuditEvent) (hinv : sortedInv s acc) :
    (insertSorted (compareEvents s) x acc).filter
        (fun e => decide (sortKey s.field e = some k))
      = (if sortKey s.field x = some k
         then acc.filter (fun e => decide (sortKey s.field e = some k)) ++ [x]
         else acc.filter (fun e => decide (sortKey s.field e = some k))) := by
  induction acc with
  | nil =>
    by_cases hqx : sortKey s.field x = some k <;> simp [insertSorted, hqx]
  | cons y ys ih =>
    rw [sortedInv, List.pairwise_cons] at hinv
    obtain ⟨hy, hys⟩ := hinv
    by_cases hc : compareEvents s x y < 0
    · rw [insertSorted, if_pos hc]
      by_cases hqx : sortKey s.field x = some k
      · have hnone : ∀ z ∈ y :: ys, ¬ sortKey s.field z = some k := by
          intro z hz hqz
          rcases List.mem_cons.mp hz with rfl | hzys
          · have h0 := compareEvents_key_zero s x z k hqx hqz
            omega
          · have hcongr := compareEvents_key_congr s x z k hqx hqz y
            exact hy z hzys (by rw [hcongr.1]; exact hc)
        have hempty : (y :: ys).filter (fun e => decide (sortKey s.field e = some k)) = [] := by
          rw [List.filter_eq_nil_iff]
          intro z hz
          simpa using hnone z hz
        simp [List.filter_cons, hqx, hempty]
      · simp [List.filter_cons, hqx]
    · rw [insertSorted, if_neg hc]
      have ihh := ih hys
      by_cases hqy : sortKey s.field y = some k <;>
        by_cases hqx : sortKey s.field x = some k <;>
        simp [List.filter_cons, hqy, hqx, ihh]

/-- Filtering any key class through the whole sort is the identity: equal-key
events keep their relative order. -/
theorem filter_stableSort (s : SortOptions) (k : SortKey) :
    ∀ (l acc : List AuditEvent), sortedInv s acc →
      sortedInv s (l.foldl (fun acc x => insertSorted (compareEvents s) x acc) acc)
      ∧ (l.foldl (fun acc x => insertSorted (compareEvents s) x acc) acc).filter
            (fun e => decide (sortKey s.field e = some k))
          = acc.filter (fun e => decide (sortKey s.field e = some k))
            ++ l.filter (fun e => decide (sortKey s.field e = some k)) := by
  intro l
  induction l with
  | nil => intro acc h; exact ⟨h, by simp⟩
  | cons x rest ih =>
    intro acc h
    have hinv' := sortedInv_insert s x acc h
    obtain ⟨ha, hb⟩ := ih (insertSorted (compareEvents s) x acc) hinv'
    refine ⟨ha, ?_⟩
    show (rest.foldl (fun acc x => insertSorted (compareEvents s) x acc)
        (insertSorted (compareEvents s) x acc)).filter
        (fun e => decide (sortKey s.field e = some k)) = _
    rw [hb, filter_insertSorted s k x acc h]
    by_cases hqx : sortKey s.field x = some k <;>
      simp [List.filter_cons, hqx, List.append_assoc]

/-- Claim C5: for every sort field and both directions, the sorted output
places every event with a present sort-field value before every event missing
it, keeps events of equal sort-field value in their original relative order,
and is a permutation of its input. -/
theorem local_sort_missing_last_and_stable (s : SortOptions) (l : List AuditEvent) :
    List.Pairwise (relMissing s) (LocalStorageAdapter.applySort l s)
    ∧ (∀ k : SortKey,
        (LocalStorageAdapter.applySort l s).filter
            (fun e => decide (sortKey s.field e = some k))
          = l.filter (fun e => decide (sortKey s.field e = some k)))
    ∧ List.Perm (LocalStorageAdapter.applySort l s) l := by
  refine ⟨?_, ?_, ?_⟩
  · exact pairwise_stableSort s l [] List.Pairwise.nil
  · intro k
    have h := (filter_stableSort s k l [] (List.Pairwise.nil)).2
    simpa using h
  · have h := stableSort_perm (compareEvents s) l []
    simpa using h

/-! ### save: identity assignment and retention -/

/-- A generated id is never the empty string. -/
theorem generateId_ne_empty (now : Int) (suffix : String) :
    LocalStorageAdapter.generateId now suffix ≠ "" := by
  intro h
  have := congrArg String.length h
  rw [LocalStorageAdapter.generateId] at this
  simp only [String.length_append] at this
  have hdash : "-".length = 1 := by decide
  have hemp : "".length = 0 := by decide
  omega

/-- Claim C6 as amended: a truthy (non-empty) caller id and a truthy (nonzero)
caller timestamp are persisted verbatim; a falsy one is treated as absent and
replaced — the assigned id is non-empty and the assigned timestamp is the
current time — and with a positive cap the normalized event is persisted at
the head of the store. -/
theorem local_save_identity_assignment (m : Nat) (now : Int) (suffix : String)
    (e : AuditEvent) (store : RawStore) :
    (truthyStr e.id = true → (LocalStorageAdapter.normalizeEvent now suffix e).id = e.id)
    ∧ (truthyInt e.timestamp = true →
        (LocalStorageAdapter.normalizeEvent now suffix e).timestamp = e.timestamp)
    ∧ (truthyStr e.id = false →
        (LocalStorageAdapter.normalizeEvent now suffix e).id
            = some (LocalStorageAdapter.generateId now suffix)
          ∧ LocalStorageAdapter.generateId now suffix ≠ "")
    ∧ (truthyInt e.timestamp = false →
        (LocalStorageAdapter.normalizeEvent now suffix e).timestamp = some now)
    ∧ (1 ≤ m →
        LocalStorageAdapter.getAllEvents (LocalStorageAdapter.save m now suffix e store)
          = LocalStorageAdapter.normalizeEvent now suffix e
              :: (LocalStorageAdapter.getAllEvents store).take (m - 1)) := by
  refine ⟨?_, ?_, ?_, ?_, ?_⟩
  · intro h
    rcases he : e.id with _ | s
    · rw [he] at h; simp [truthyStr] at h
    · rw [he] at h
      simp [LocalStorageAdapter.normalizeEvent, he, h]
  · intro h
    rcases he : e.timestamp with _ | t
    · rw [he] at h; simp [truthyInt] at h
    · rw [he] at h
      simp [LocalStorageAdapter.normalizeEvent, he, h]
  · intro h
    exact ⟨by simp [LocalStorageAdapter.normalizeEvent, h], generateId_ne_empty now suffix⟩
  · intro h
    simp [LocalStorageAdapter.normalizeEvent, h]
  · intro hm
    obtain ⟨m', rfl⟩ : ∃ m', m = m' + 1 := ⟨m - 1, by omega⟩
    simp only [LocalStorageAdapter.save, LocalStorageAdapter.getAllEvents]
    split_ifs with h
    · rw [List.take_succ_cons]
      simp
    · congr 1
      rw [show m' + 1 - 1 = m' from rfl]
      refine (List.take_of_length_le ?_).symm
      simp only [List.length_cons] at h
      omega

/-- Witness for C6 at a concrete draft carrying both identity fields. -/
theorem local_save_identity_assignment_witness :
    (truthyStr draftFull.id = true
     ∧ (LocalStorageAdapter.normalizeEvent 7 "abc" draftFull).id = draftFull.id)
    ∧ (truthyInt draftFull.timestamp = true
     ∧ (LocalStorageAdapter.normalizeEvent 7 "abc" draftFull).timestamp = draftFull.timestamp)
    ∧ (1 ≤ 2
     ∧ LocalStorageAdapter.getAllEvents
          (LocalStorageAdapter.save 2 7 "abc" draftFull (.good []))
        = LocalStorageAdapter.normalizeEvent 7 "abc" draftFull
            :: (LocalStorageAdapter.getAllEvents (RawStore.good [])).take (2 - 1)) :=
  ⟨⟨rfl, (local_save_identity_assignment 2 7 "abc" draftFull (.good [])).1 rfl⟩,
   ⟨rfl, (local_save_identity_assignment 2 7 "abc" draftFull (.good [])).2.1 rfl⟩,
   ⟨by omega,
    (local_save_identity_assignment 2 7 "abc" draftFull (.good [])).2.2.2.2 (by omega)⟩⟩

/-- One save turns the stored list into the capped cons. -/
theorem save_events_eq_take (m : Nat) (now : Int) (suffix : String) (e : AuditEvent)
    (store : RawStore) :
    LocalStorageAdapter.getAllEvents (LocalStorageAdapter.save m now suffix e store)
      = (LocalStorageAdapter.normalizeEvent now suffix e
          :: LocalStorageAdapter.getAllEvents store).take m := by
  simp only [LocalStorageAdapter.save, LocalStorageAdapter.getAllEvents]
  split_ifs with h
  · rfl
  · exact (List.take_of_length_le (by omega)).symm

/-- Truncating after appending an already-truncated tail is truncating the
full append. -/
theorem take_append_take {α : Type} (A B : List α) (m : Nat) :
    (A ++ B.take m).take m = (A ++ B).take m := by
  rw [List.take_append_eq_append_take, List.take_append_eq_append_take, List.take_take,
    Nat.min_eq_left (Nat.sub_le m A.length)]

/-- Running a batch of saves over a within-cap store keeps, of the batch's
normalized events in reverse save order followed by the old events, only the
first `m`. -/
theorem saveAll_events (m : Nat) :
    ∀ (batch : List (Int × String × AuditEvent)) (store : RawStore),
      (LocalStorageAdapter.getAllEvents store).length ≤ m →
      LocalStorageAdapter.getAllEvents (saveAll m batch store)
        = ((batch.map normTriple).reverse ++ LocalStorageAdapter.getAllEvents store).take m := by
  intro batch
  induction batch with
  | nil =>
    intro store h
    simp only [saveAll, List.foldl_nil, List.map_nil, List.reverse_nil, List.nil_append]
    exact (List.take_of_length_le h).symm
  | cons x rest ih =>
    intro store h
    have hsave := save_events_eq_take m x.1 x.2.1 x.2.2 store
    have hlen : (LocalStorageAdapter.getAllEvents
        (LocalStorageAdapter.save m x.1 x.2.1 x.2.2 store)).length ≤ m := by
      rw [hsave]
      exact List.length_take_le m _
    have hrest := ih (LocalStorageAdapter.save m x.1 x.2.1 x.2.2 store) hlen
    show LocalStorageAdapter.getAllEvents (saveAll m rest
        (LocalStorageAdapter.save m x.1 x.2.1 x.2.2 store)) = _
    rw [hrest, hsave, take_append_take]
    congr 1
    show (rest.map normTriple).reverse ++ normTriple x :: LocalStorageAdapter.getAllEvents store
      = ((x :: rest).map normTriple).reverse ++ LocalStorageAdapter.getAllEvents store
    rw [List.map_cons, List.reverse_cons, List.append_assoc]
    rfl

/-- Claim C7: after `maxEvents + k` saves (`k ≥ 1`) into an initially empty
store, exactly `maxEvents` events remain, and they are the most recently saved
ones in most-recent-first order. -/
theorem local_eviction_retains_most_recent (m k : Nat)
    (batch : List (Int × String × AuditEvent))
    (hlen : batch.length = m + k) (hk : 1 ≤ k) :
    (LocalStorageAdapter.getAllEvents (saveAll m batch (.good []))).length = m
    ∧ LocalStorageAdapter.getAllEvents (saveAll m batch (.good []))
        = ((batch.map normTriple).reverse).take m := by
  have h := saveAll_events m batch (.good [])
    (by simp [LocalStorageAdapter.getAllEvents])
  rw [show LocalStorageAdapter.getAllEvents (RawStore.good []) = [] from rfl,
    List.append_nil] at h
  refine ⟨?_, h⟩
  rw [h]
  simp only [List.length_take, List.length_reverse, List.length_map, hlen]
  omega

/-- Witness for C7: a cap of three, four saves, three survivors. -/
theorem local_eviction_retains_most_recent_witness :
    batchC7.length = 3 + 1
    ∧ ((LocalStorageAdapter.getAllEvents (saveAll 3 batchC7 (.good []))).length = 3
       ∧ LocalStorageAdapter.getAllEvents (saveAll 3 batchC7 (.good []))
          = ((batchC7.map normTriple).reverse).take 3) :=
  ⟨rfl, local_eviction_retains_most_recent 3 1 batchC7 rfl (by omega)⟩

end AuditTracker
